import Mathlib

/-!
Shallow embedding of the pastecat memory-mapped storage backend
(`storage_mmap.go`) and of the HTTP POST handler (`handlePost`), together
with proofs about the behaviours described in the design document.

Pure Go values are translated to Lean values: byte slices become
`List Nat`, `time.Time` and `time.Duration` become `Int` (an abstract
integer timeline), `int64` sizes become `Int`.  The filesystem and the
cache table are modelled as association lists, and each exported store
operation becomes an explicit state-passing function.  Components of the
repository that are referenced but whose source is not present (the quota
tracker `Stats`, `randomID`, `pathFromID`/`idFromPath`, `writeNewFile`,
`setupPasteDeletion`, and the recovery walk driver) are modelled from the
design document and marked as such in their doc comments.
-/

set_option autoImplicit false

namespace Pastecat

/-- Decidable equality for `Except`, so that concrete runs of the model
can be checked by `decide`. -/
instance {ε α : Type} [DecidableEq ε] [DecidableEq α] : DecidableEq (Except ε α) := fun a b =>
  match a, b with
  | .error e, .error f =>
      if h : e = f then isTrue (by rw [h]) else isFalse (fun hh => h (Except.error.inj hh))
  | .error _, .ok _ => isFalse Except.noConfusion
  | .ok _, .error _ => isFalse Except.noConfusion
  | .ok x, .ok y =>
      if h : x = y then isTrue (by rw [h]) else isFalse (fun hh => h (Except.ok.inj hh))

/-- Modelled from the spec: identifiers are fixed-length opaque random
tokens; we model the token space as the naturals. -/
abbrev ID := Nat

/-- A filesystem path.  Modelled from the spec: each object is stored in a
file named by its full id, so a path either is the well-formed path of an
id or is a malformed name (carrying a tag so distinct malformed names
exist). -/
inductive FPath where
  | good (id : ID)
  | bad (tag : Nat)
deriving DecidableEq

/-- The error taxonomy of the storage layer. -/
inductive Err where
  | pasteNotFound
  | quotaExceeded
  | exhausted
  | badPath
  | mmapFailed
  | writeFailed
  | sysErr (code : Nat)
deriving DecidableEq

/-- Association-list lookup, used to model Go maps. -/
def alookup {α β : Type} [DecidableEq α] : List (α × β) → α → Option β
  | [], _ => none
  | (a, b) :: rest, x => if a = x then some b else alookup rest x

/-- Association-list key removal, used to model `delete(m, k)`. -/
def aerase {α β : Type} [DecidableEq α] : List (α × β) → α → List (α × β)
  | [], _ => []
  | (a, b) :: rest, x => if a = x then aerase rest x else (a, b) :: aerase rest x

/-- Modelled from the spec: the Quota Tracker state, with current object
count and aggregate byte total against configured ceilings (0 means
unbounded).  The tracker itself (`Stats` with `hasSpaceFor`,
`makeSpaceFor`, `freeSpace`, `MakeSpaceFor`, `FreeSpace`) is not under
`src/`; only its call sites are. -/
structure Stats where
  currentCount : Int
  currentBytes : Int
  maxCount : Int
  maxBytes : Int
deriving DecidableEq

/-- Modelled from the spec: the reservation check.  Fails with
`QuotaExceeded` if admitting one more object of `size` bytes would exceed
a configured ceiling. -/
def Stats.hasSpaceFor (s : Stats) (size : Int) : Except Err Unit :=
  if (0 < s.maxCount ∧ s.maxCount < s.currentCount + 1) ∨
     (0 < s.maxBytes ∧ s.maxBytes < s.currentBytes + size) then
    .error .quotaExceeded
  else
    .ok ()

/-- Modelled from the spec: apply a reservation, incrementing the count
and the byte total. -/
def Stats.makeSpaceFor (s : Stats) (size : Int) : Stats :=
  { s with currentCount := s.currentCount + 1, currentBytes := s.currentBytes + size }

/-- Modelled from the spec: release a reservation, decrementing the count
and the byte total; never fails. -/
def Stats.freeSpace (s : Stats) (size : Int) : Stats :=
  { s with currentCount := s.currentCount - 1, currentBytes := s.currentBytes - size }

/-- Modelled from the spec: the exported atomic reserve operation used by
the request layer (`stats.MakeSpaceFor`): evaluate the ceiling check and,
if it passes, apply the reservation, as one atomic step. -/
def Stats.MakeSpaceFor (s : Stats) (size : Int) : Except Err Stats :=
  match s.hasSpaceFor size with
  | .error e => .error e
  | .ok () => .ok (s.makeSpaceFor size)

/-- Modelled from the spec: the exported release operation used by the
request layer (`stats.FreeSpace`). -/
def Stats.FreeSpace (s : Stats) (size : Int) : Stats :=
  s.freeSpace size

/-- Modelled from the spec: each id maps to exactly one well-formed path. -/
def pathFromID (id : ID) : FPath :=
  .good id

/-- Modelled from the spec: recover the id from the file name; fails on a
malformed (unparsable) name. -/
def idFromPath : FPath → Except Err ID
  | .good id => .ok id
  | .bad _ => .error .badPath

/-- Modelled from the spec: the identifier generator draws candidates from
a random stream, retries while the availability check rejects them, and
fails with an exhaustion error after the bounded candidate stream runs
out.  The random stream is passed in explicitly. -/
def randomID (avail : ID → Bool) : List ID → Except Err ID
  | [] => .error .exhausted
  | c :: rest => if avail c then .ok c else randomID avail rest

/-- Modelled from the spec: `writeNewFile` creates the file at `p` with
the given content, failing rather than overwriting an existing file
(atomic exclusive creation). -/
def writeNewFile (fs : List (FPath × List Nat)) (p : FPath) (content : List Nat) :
    Except Err (List (FPath × List Nat)) :=
  match alookup fs p with
  | some _ => .error .writeFailed
  | none => .ok ((p, content) :: fs)

/-- `getMmap` (from `storage_mmap.go`): map `length` bytes of the open
file read-only.  `syscall.Mmap` fails when the requested length is zero
(EINVAL) or the file cannot be mapped; a successful mapping exposes the
first `length` bytes of the file content. -/
def getMmap (contents : Option (List Nat)) (length : Nat) : Except Err (List Nat) :=
  match contents with
  | none => .error .mmapFailed
  | some bytes => if length = 0 then .error .mmapFailed else .ok (bytes.take length)

/-- Modelled from the spec: the Deletion Scheduler records a one-shot
timer of the given remaining lifetime for the id; when expiration is
disabled (lifetime = 0) no timer is armed.  The immediate-deletion branch
for a non-positive remaining lifetime is unreachable from the call sites
modelled here, which only arm with a positive remaining lifetime when
expiration is enabled. -/
def setupPasteDeletion (timers : List (ID × Int)) (lifeTime : Int) (id : ID) (left : Int) :
    List (ID × Int) :=
  if lifeTime = 0 then timers else (id, left) :: timers

/-- The `mmapCache` entry of `storage_mmap.go`: the `sync.WaitGroup`
`reading` is modelled by its counter, a natural number.  Note that in Go
this struct is stored in the map **by value**, so reading it out of the
map copies the whole struct, counter included. -/
structure MmapCacheV where
  reading : Nat
  modTime : Int
  path : FPath
  mmap : List Nat
  size : Int
deriving DecidableEq

/-- The `MmapStore` state: the cache table, the backing filesystem, the
quota counters, and the armed deletion timers (id, remaining lifetime). -/
structure StoreSt where
  cache : List (ID × MmapCacheV)
  fs : List (FPath × List Nat)
  stats : Stats
  timers : List (ID × Int)
deriving DecidableEq

/-- The state of a fresh `NewMmapStore` before recovery: empty cache and
zero quota counters over an arbitrary persisted directory tree. -/
def initStore (maxCount maxBytes : Int) (fs : List (FPath × List Nat)) : StoreSt :=
  { cache := []
    fs := fs
    stats := { currentCount := 0, currentBytes := 0, maxCount := maxCount, maxBytes := maxBytes }
    timers := [] }

/-- The reader handle returned by `MmapStore.Get` (`MmapPaste`): a reader
over the mapped bytes plus the **escaped local copy** of the cache entry.
In the Go source `cached, e := s.cache[id]` copies the struct out of the
map and `cached.reading.Add(1)` increments only that local copy; the
returned handle points at the copy, so `Close` decrements the copy as
well and the entry stored in the map is never touched. -/
structure MmapPasteHandle where
  content : List Nat
  escaped : MmapCacheV
deriving DecidableEq

/-- `MmapStore.Get`: look the id up under the read lock; absent ids fail
with `ErrPasteNotFound`; otherwise build a reader over the mapped region
and increment the reader count of the escaped copy of the entry.  The
store state is unchanged (the map entry is not written back). -/
def StoreSt.get (st : StoreSt) (id : ID) : Except Err MmapPasteHandle :=
  match alookup st.cache id with
  | none => .error .pasteNotFound
  | some cached =>
      .ok { content := cached.mmap
            escaped := { cached with reading := cached.reading + 1 } }

/-- Result of `MmapStore.Put`: the returned id or error, and the store
state afterwards. -/
structure PutRes where
  result : Except Err ID
  st : StoreSt
deriving DecidableEq

/-- `MmapStore.Put`: under the exclusive lock, check quota headroom for
`len(content)` bytes, draw a fresh id (available = not in the cache
table), write the file, open and map it, then apply the quota reservation
and insert the cache entry with the current time as modification time.
`now` models `time.Now()` and `cands` the random id stream. -/
def StoreSt.put (st : StoreSt) (now : Int) (cands : List ID) (content : List Nat) : PutRes :=
  match st.stats.hasSpaceFor (content.length : Int) with
  | .error e => ⟨.error e, st⟩
  | .ok () =>
    match randomID (fun i => (alookup st.cache i).isNone) cands with
    | .error e => ⟨.error e, st⟩
    | .ok id =>
      match writeNewFile st.fs (pathFromID id) content with
      | .error e => ⟨.error e, st⟩
      | .ok fs1 =>
        match getMmap (alookup fs1 (pathFromID id)) content.length with
        | .error e => ⟨.error e, { st with fs := fs1 }⟩
        | .ok data =>
            ⟨.ok id,
             { st with
                fs := fs1
                stats := st.stats.makeSpaceFor (content.length : Int)
                cache := (id, { reading := 0
                                modTime := now
                                path := pathFromID id
                                mmap := data
                                size := (content.length : Int) }) :: aerase st.cache id }⟩

/-- Result of a `MmapStore.Delete` call that ran to completion: the
returned error or success, the store state afterwards, the WaitGroup
counter value that `cached.reading.Wait()` observed, and whether the
munmap and the backing-file removal were performed. -/
structure DeleteRes where
  result : Except Err Unit
  st : StoreSt
  waitedOn : Nat
  unmapped : Bool
  fileRemoved : Bool
deriving DecidableEq

/-- `MmapStore.Delete`: under the exclusive lock, look the id up (absent
fails with `ErrPasteNotFound`), remove the entry from the table, then
`cached.reading.Wait()` on the **local copy** of the entry: the call
blocks until the copied counter is zero, and since nothing can decrement
the copy, the operation completes (result `some`) only when the copied
counter is already zero, and blocks forever (result `none`) otherwise.
It then unmaps, removes the backing file and releases quota; the two
fallible syscalls are modelled with injected outcomes `munmapErr` and
`removeErr`, and a failure returns early without releasing quota. -/
def StoreSt.delete (st : StoreSt) (id : ID) (munmapErr removeErr : Option Err) :
    Option DeleteRes :=
  match alookup st.cache id with
  | none => some ⟨.error .pasteNotFound, st, 0, false, false⟩
  | some cached =>
    let st1 := { st with cache := aerase st.cache id }
    if cached.reading = 0 then
      match munmapErr with
      | some e => some ⟨.error e, st1, cached.reading, false, false⟩
      | none =>
        match removeErr with
        | some e => some ⟨.error e, st1, cached.reading, true, false⟩
        | none =>
            some ⟨.ok (),
                  { st1 with
                     fs := aerase st1.fs cached.path
                     stats := st1.stats.freeSpace cached.size },
                  cached.reading, true, true⟩
    else
      none

/-- The fields of `os.FileInfo` that `Recover` reads. -/
structure FileInfo where
  isDir : Bool
  modTime : Int
  size : Int
deriving DecidableEq

/-- Result of one `MmapStore.Recover` callback invocation. -/
structure RecoverRes where
  result : Except Err Unit
  st : StoreSt
deriving DecidableEq

/-- `MmapStore.Recover`, the walk callback: propagate an incoming walk
error, skip directories, parse the id from the path (returning the parse
error to the walk driver on failure), delete the file at once when the
configured lifetime is enabled and the remaining lifetime
`modTime + lifeTime - startTime` is non-positive, delete zero-byte files
as corrupt, and otherwise check quota headroom, open and map the file,
apply the reservation, insert the cache entry (keeping the file
modification time) and arm a deletion timer for the remaining
lifetime. -/
def StoreSt.recover (st : StoreSt) (lifeTime startTime : Int) (path : FPath)
    (fi : FileInfo) (err : Option Err) : RecoverRes :=
  match err with
  | some e => ⟨.error e, st⟩
  | none =>
    if fi.isDir then ⟨.ok (), st⟩
    else
      match idFromPath path with
      | .error e => ⟨.error e, st⟩
      | .ok id =>
        if 0 < lifeTime ∧ fi.modTime + lifeTime - startTime ≤ 0 then
          ⟨.ok (), { st with fs := aerase st.fs path }⟩
        else if fi.size = 0 then
          ⟨.ok (), { st with fs := aerase st.fs path }⟩
        else
          match st.stats.hasSpaceFor fi.size with
          | .error e => ⟨.error e, st⟩
          | .ok () =>
            match getMmap (alookup st.fs path) fi.size.toNat with
            | .error e => ⟨.error e, st⟩
            | .ok data =>
                ⟨.ok (),
                 { st with
                    stats := st.stats.makeSpaceFor fi.size
                    cache := (id, { reading := 0
                                    modTime := fi.modTime
                                    path := path
                                    mmap := data
                                    size := fi.size }) :: aerase st.cache id
                    timers := setupPasteDeletion st.timers lifeTime id
                                (fi.modTime + lifeTime - startTime) }⟩

/-- Modelled from the spec: the recovery walk driver (`setupSubdirs`
calling `filepath.Walk` over the sharded tree is not under `src/`).
Standard walk semantics: the callback is invoked on each entry in order,
and a non-nil error returned by the callback aborts the walk. -/
def walkRecover (lifeTime startTime : Int) :
    StoreSt → List (FPath × FileInfo) → Except Err Unit × StoreSt
  | st, [] => (.ok (), st)
  | st, (p, fi) :: rest =>
    let r := st.recover lifeTime startTime p fi none
    match r.result with
    | .error e => (.error e, r.st)
    | .ok () => walkRecover lifeTime startTime r.st rest

/-- A single observable operation against the store: the arguments of one
`Put`, `Delete` or `Recover` call, including the injected syscall
outcomes. -/
inductive Op where
  | opPut (now : Int) (cands : List ID) (content : List Nat)
  | opDelete (id : ID) (munmapErr removeErr : Option Err)
  | opRecover (lifeTime startTime : Int) (path : FPath) (fi : FileInfo) (err : Option Err)
deriving DecidableEq

/-- Run one operation, keeping only the resulting store state.  A
`Delete` whose reader wait would block forever keeps the lock held, so no
later state is observable; we keep the pre-state in that case (the quota
counters are unchanged either way). -/
def stepOp (st : StoreSt) : Op → StoreSt
  | .opPut now cands content => (st.put now cands content).st
  | .opDelete id me re =>
    match st.delete id me re with
    | none => st
    | some r => r.st
  | .opRecover lt t0 p fi err => (st.recover lt t0 p fi err).st

/-- All states observable along a sequence of operations, the initial one
included. -/
def traceStates (st : StoreSt) : List Op → List StoreSt
  | [] => [st]
  | op :: rest => st :: traceStates (stepOp st op) rest

/-- The quota invariant of the design document: each counter is within
its ceiling whenever that ceiling is enabled. -/
def quotaOK (s : Stats) : Prop :=
  (0 < s.maxCount → s.currentCount ≤ s.maxCount) ∧
  (0 < s.maxBytes → s.currentBytes ≤ s.maxBytes)

instance (s : Stats) : Decidable (quotaOK s) := by
  unfold quotaOK; infer_instance

/-- Auxiliary invariant: every cached entry records a non-negative size. -/
def sizesOK (st : StoreSt) : Prop :=
  ∀ p ∈ st.cache, 0 ≤ p.2.size

instance (st : StoreSt) : Decidable (sizesOK st) := by
  unfold sizesOK; infer_instance

/-- A response fragment written by the HTTP handler. -/
inductive Resp where
  | httpError (code : Nat)
  | pasteURL (id : ID)
deriving DecidableEq

/-- The observable outcome of one `handlePost` invocation: the quota
state, the armed timers, and the response fragments in the order they
were written. -/
structure PostRes where
  stats : Stats
  timers : List (ID × Int)
  response : List Resp
deriving DecidableEq

/-- `handlePost` from the request layer: extract the form content (an
absent or empty paste yields a 400 response and stops), reserve quota
through `stats.MakeSpaceFor` — on failure a 503 response is written but
the handler does **not** return —, call `store.Put` (its outcome is
passed in as `putResult`), and either roll the reservation back with
`stats.FreeSpace` and write a 500 response when Put failed, or arm the
deletion timer for the full configured lifetime and append the paste URL
to the same response. -/
def handlePost (stats : Stats) (timers : List (ID × Int)) (lifeTime : Int)
    (formContent : Option (List Nat)) (putResult : Except Err ID) : PostRes :=
  match formContent with
  | none => ⟨stats, timers, [.httpError 400]⟩
  | some content =>
    let size : Int := content.length
    let resPair :=
      match stats.MakeSpaceFor size with
      | .error _ => (stats, [Resp.httpError 503])
      | .ok s1 => (s1, ([] : List Resp))
    match putResult with
    | .error _ => ⟨resPair.1.FreeSpace size, timers, resPair.2 ++ [.httpError 500]⟩
    | .ok id => ⟨resPair.1, setupPasteDeletion timers lifeTime id lifeTime,
                 resPair.2 ++ [.pasteURL id]⟩

theorem mem_aerase {α β : Type} [DecidableEq α] {l : List (α × β)} {x : α} {p : α × β}
    (h : p ∈ aerase l x) : p ∈ l := by
  induction l with
  | nil => simp [aerase] at h
  | cons hd tl ih =>
    obtain ⟨a, b⟩ := hd
    by_cases hax : a = x
    · simp only [aerase, if_pos hax] at h
      exact List.mem_cons_of_mem _ (ih h)
    · simp only [aerase, if_neg hax, List.mem_cons] at h
      rcases h with h1 | h2
      · simp [h1]
      · exact List.mem_cons_of_mem _ (ih h2)

theorem alookup_mem {α β : Type} [DecidableEq α] {l : List (α × β)} {x : α} {b : β}
    (h : alookup l x = some b) : (x, b) ∈ l := by
  induction l with
  | nil => simp [alookup] at h
  | cons hd tl ih =>
    obtain ⟨a, v⟩ := hd
    by_cases hax : a = x
    · simp only [alookup, if_pos hax, Option.some.injEq] at h
      simp [hax, h]
    · simp only [alookup, if_neg hax] at h
      exact List.mem_cons_of_mem _ (ih h)

theorem alookup_aerase {α β : Type} [DecidableEq α] (l : List (α × β)) (x : α) :
    alookup (aerase l x) x = none := by
  induction l with
  | nil => simp [aerase, alookup]
  | cons hd tl ih =>
    obtain ⟨a, b⟩ := hd
    by_cases hax : a = x
    · simpa [aerase, if_pos hax] using ih
    · simp [aerase, alookup, if_neg hax, hax, ih]

theorem quotaOK_makeSpaceFor {s : Stats} {size : Int}
    (h : s.hasSpaceFor size = .ok ()) : quotaOK (s.makeSpaceFor size) := by
  unfold Stats.hasSpaceFor at h
  split at h
  · simp at h
  · rename_i hc
    push_neg at hc
    exact ⟨fun hm => hc.1 hm, fun hb => hc.2 hb⟩

theorem quotaOK_freeSpace {s : Stats} {size : Int}
    (hq : quotaOK s) (hsz : 0 ≤ size) : quotaOK (s.freeSpace size) := by
  obtain ⟨h1, h2⟩ := hq
  simp only [quotaOK, Stats.freeSpace] at *
  refine ⟨fun hm => ?_, fun hb => ?_⟩
  · have h := h1 hm
    omega
  · have h := h2 hb
    omega

theorem getMmap_ok_len {c : Option (List Nat)} {len : Nat} {d : List Nat}
    (h : getMmap c len = .ok d) : len ≠ 0 := by
  unfold getMmap at h
  split at h
  · simp at h
  · split at h
    · simp at h
    · rename_i hlen
      exact hlen

theorem put_preserves (st : StoreSt) (now : Int) (cands : List ID) (content : List Nat)
    (hq : quotaOK st.stats) (hs : sizesOK st) :
    quotaOK (st.put now cands content).st.stats ∧ sizesOK (st.put now cands content).st := by
  unfold StoreSt.put
  repeat' split
  all_goals try exact ⟨hq, hs⟩
  refine ⟨quotaOK_makeSpaceFor (by assumption), ?_⟩
  intro p hp
  rcases List.mem_cons.mp hp with h1 | h2
  · subst h1
    simp
  · exact hs p (mem_aerase h2)

theorem delete_some_preserves (st : StoreSt) (id : ID) (me re : Option Err) (r : DeleteRes)
    (hq : quotaOK st.stats) (hs : sizesOK st)
    (h : st.delete id me re = some r) :
    quotaOK r.st.stats ∧ sizesOK r.st := by
  have hsub : sizesOK { st with cache := aerase st.cache id } := by
    intro p hp
    exact hs p (mem_aerase hp)
  unfold StoreSt.delete at h
  split at h
  · cases h
    exact ⟨hq, hs⟩
  · rename_i cached hcached
    split at h
    · split at h
      · cases h
        exact ⟨hq, hsub⟩
      · split at h
        · cases h
          exact ⟨hq, hsub⟩
        · cases h
          refine ⟨?_, hsub⟩
          exact quotaOK_freeSpace hq (hs _ (alookup_mem hcached))
    · cases h

theorem recover_preserves (st : StoreSt) (lt t0 : Int) (p : FPath) (fi : FileInfo)
    (err : Option Err) (hq : quotaOK st.stats) (hs : sizesOK st) :
    quotaOK (st.recover lt t0 p fi err).st.stats ∧ sizesOK (st.recover lt t0 p fi err).st := by
  unfold StoreSt.recover
  repeat' split
  all_goals try exact ⟨hq, hs⟩
  rename_i data hmm
  refine ⟨quotaOK_makeSpaceFor (by assumption), ?_⟩
  intro q hqmem
  rcases List.mem_cons.mp hqmem with h1 | h2
  · subst h1
    have hlen := getMmap_ok_len hmm
    show 0 ≤ fi.size
    omega
  · exact hs q (mem_aerase h2)

theorem stepOp_preserves (st : StoreSt) (op : Op)
    (hq : quotaOK st.stats) (hs : sizesOK st) :
    quotaOK (stepOp st op).stats ∧ sizesOK (stepOp st op) := by
  cases op with
  | opPut now cands content =>
    exact put_preserves st now cands content hq hs
  | opDelete id me re =>
    cases hdel : st.delete id me re with
    | none => simpa [stepOp, hdel] using ⟨hq, hs⟩
    | some r =>
      have := delete_some_preserves st id me re r hq hs hdel
      simpa [stepOp, hdel] using this
  | opRecover lt t0 p fi err =>
    exact recover_preserves st lt t0 p fi err hq hs

theorem traceStates_quotaOK (st : StoreSt) (hq : quotaOK st.stats) (hs : sizesOK st)
    (ops : List Op) : ∀ s ∈ traceStates st ops, quotaOK s.stats := by
  induction ops generalizing st with
  | nil =>
    intro s hmem
    simp only [traceStates, List.mem_singleton] at hmem
    subst hmem
    exact hq
  | cons op rest ih =>
    intro s hmem
    simp only [traceStates, List.mem_cons] at hmem
    rcases hmem with h1 | h2
    · subst h1
      exact hq
    · exact ih (stepOp st op) (stepOp_preserves st op hq hs).1
        (stepOp_preserves st op hq hs).2 s h2

theorem writeNewFile_ok {fs fs1 : List (FPath × List Nat)} {p : FPath} {c : List Nat}
    (h : writeNewFile fs p c = .ok fs1) : fs1 = (p, c) :: fs ∧ alookup fs p = none := by
  unfold writeNewFile at h
  split at h
  · simp at h
  · rename_i hnone
    injection h with h
    exact ⟨h.symm, hnone⟩

theorem getMmap_some_ok {bytes d : List Nat} {len : Nat}
    (h : getMmap (some bytes) len = .ok d) : d = bytes.take len := by
  simp only [getMmap] at h
  split at h
  · simp at h
  · injection h with h
    exact h.symm

theorem MakeSpaceFor_ok {s s1 : Stats} {size : Int}
    (h : s.MakeSpaceFor size = .ok s1) : s1 = s.makeSpaceFor size := by
  unfold Stats.MakeSpaceFor at h
  split at h
  · simp at h
  · injection h with h
    exact h.symm

theorem makeSpaceFor_freeSpace (s : Stats) (size : Int) :
    (s.makeSpaceFor size).freeSpace size = s := by
  unfold Stats.makeSpaceFor Stats.freeSpace
  simp

/-- Claim C2: for every sequence of Put, Delete, and Recover operations
on the memory-mapped store, starting from a fresh store over any
persisted tree, at every observable instant the quota counters satisfy
`currentCount ≤ maxCount` when `maxCount > 0` and
`currentBytes ≤ maxBytes` when `maxBytes > 0`. -/
theorem quota_ceilings_hold (maxCount maxBytes : Int)
    (fs0 : List (FPath × List Nat)) (ops : List Op) (s : StoreSt)
    (hmem : s ∈ traceStates (initStore maxCount maxBytes fs0) ops) :
    (0 < s.stats.maxCount → s.stats.currentCount ≤ s.stats.maxCount) ∧
    (0 < s.stats.maxBytes → s.stats.currentBytes ≤ s.stats.maxBytes) :=
  traceStates_quotaOK (initStore maxCount maxBytes fs0)
    ⟨fun h => le_of_lt h, fun h => le_of_lt h⟩
    (fun p hp => absurd hp (List.not_mem_nil p))
    ops s hmem

/-- Witness for the quota invariant at a concrete two-operation trace. -/
theorem quota_ceilings_hold_witness :
    (0 < (stepOp (initStore 1 10 []) (Op.opPut 0 [3] [1, 2])).stats.maxCount →
       (stepOp (initStore 1 10 []) (Op.opPut 0 [3] [1, 2])).stats.currentCount ≤
         (stepOp (initStore 1 10 []) (Op.opPut 0 [3] [1, 2])).stats.maxCount) ∧
    (0 < (stepOp (initStore 1 10 []) (Op.opPut 0 [3] [1, 2])).stats.maxBytes →
       (stepOp (initStore 1 10 []) (Op.opPut 0 [3] [1, 2])).stats.currentBytes ≤
         (stepOp (initStore 1 10 []) (Op.opPut 0 [3] [1, 2])).stats.maxBytes) :=
  quota_ceilings_hold 1 10 [] [Op.opPut 0 [3] [1, 2]] _ (by decide)

/-- Claim C8: calling Delete on an id that has no live object returns
NotFound and performs no quota mutation: the whole store state, quota
counters included, is unchanged. -/
theorem delete_absent_notFound (st : StoreSt) (id : ID) (me re : Option Err)
    (h : alookup st.cache id = none) :
    st.delete id me re = some ⟨.error .pasteNotFound, st, 0, false, false⟩ := by
  unfold StoreSt.delete
  simp [h]

/-- Witness: deleting an unknown id from a fresh store. -/
theorem delete_absent_notFound_witness :
    (initStore 1 10 []).delete 5 none none =
      some ⟨.error .pasteNotFound, initStore 1 10 [], 0, false, false⟩ :=
  delete_absent_notFound (initStore 1 10 []) 5 none none (by decide)

/-- Claim C7: a Put that fails after a successful quota reservation is
rolled back explicitly by the handler (`stats.FreeSpace`), so after the
failed request the quota counters equal their values before it. -/
theorem handlePost_rollback_on_put_failure (stats : Stats) (timers : List (ID × Int))
    (lifeTime : Int) (content : List Nat) (stats1 : Stats) (e : Err)
    (hres : stats.MakeSpaceFor (content.length : Int) = .ok stats1) :
    (handlePost stats timers lifeTime (some content) (.error e)).stats = stats := by
  have h1 := MakeSpaceFor_ok hres
  unfold handlePost
  simp only [hres]
  show (stats1.FreeSpace (content.length : Int)) = stats
  rw [h1]
  exact makeSpaceFor_freeSpace stats (content.length : Int)

/-- Witness: a reservation that succeeds followed by a failing Put leaves
the counters where they started. -/
theorem handlePost_rollback_on_put_failure_witness :
    (handlePost ⟨0, 0, 1, 10⟩ [] 24 (some [1, 2]) (.error .writeFailed)).stats =
      ⟨0, 0, 1, 10⟩ :=
  handlePost_rollback_on_put_failure ⟨0, 0, 1, 10⟩ [] 24 [1, 2] ⟨1, 2, 1, 10⟩
    .writeFailed (by decide)

/-- Claim C10: when the quota reservation step fails, handlePost writes a
service-unavailable response but does not return: it still calls Put and,
on success, arms the deletion timer and appends the paste URL to the same
response. -/
theorem handlePost_continues_after_quota_failure (stats : Stats) (timers : List (ID × Int))
    (lifeTime : Int) (content : List Nat) (id : ID) (e : Err)
    (hfail : stats.MakeSpaceFor (content.length : Int) = .error e)
    (hlt : lifeTime ≠ 0) :
    handlePost stats timers lifeTime (some content) (.ok id) =
      ⟨stats, (id, lifeTime) :: timers, [.httpError 503, .pasteURL id]⟩ := by
  unfold handlePost setupPasteDeletion
  simp [hfail, hlt]

/-- Witness: a full store still produces a paste URL after the 503. -/
theorem handlePost_continues_after_quota_failure_witness :
    handlePost ⟨1, 2, 1, 10⟩ [] 24 (some [1, 2]) (.ok 3) =
      ⟨⟨1, 2, 1, 10⟩, [(3, 24)], [.httpError 503, .pasteURL 3]⟩ :=
  handlePost_continues_after_quota_failure ⟨1, 2, 1, 10⟩ [] 24 [1, 2] 3 .quotaExceeded
    (by decide) (by decide)

/-- Claim C3: during Recover, a persisted file whose modification time is
older than `startTime - lifeTime` (when expiration is enabled), or whose
size is zero, is deleted immediately and never registered: the cache, the
quota counters and the timers are unchanged, the file is removed, and a
Get of its id afterwards returns NotFound. -/
theorem recover_discards_expired_or_empty (st : StoreSt) (lifeTime startTime : Int)
    (path : FPath) (fi : FileInfo) (id : ID)
    (hdir : fi.isDir = false)
    (hid : idFromPath path = .ok id)
    (hcond : (0 < lifeTime ∧ fi.modTime < startTime - lifeTime) ∨ fi.size = 0)
    (habsent : alookup st.cache id = none) :
    (st.recover lifeTime startTime path fi none).result = .ok () ∧
    (st.recover lifeTime startTime path fi none).st.cache = st.cache ∧
    (st.recover lifeTime startTime path fi none).st.stats = st.stats ∧
    (st.recover lifeTime startTime path fi none).st.timers = st.timers ∧
    (st.recover lifeTime startTime path fi none).st.fs = aerase st.fs path ∧
    (st.recover lifeTime startTime path fi none).st.get id = .error .pasteNotFound := by
  have hres : st.recover lifeTime startTime path fi none =
      ⟨.ok (), { st with fs := aerase st.fs path }⟩ := by
    unfold StoreSt.recover
    rcases hcond with ⟨hl, hm⟩ | hz
    · have hexp : 0 < lifeTime ∧ fi.modTime + lifeTime - startTime ≤ 0 := ⟨hl, by omega⟩
      simp [hdir, hid, hexp]
    · by_cases hexp : 0 < lifeTime ∧ fi.modTime + lifeTime - startTime ≤ 0
      · simp [hdir, hid, hexp]
      · simp [hdir, hid, hexp, hz]
  rw [hres]
  refine ⟨rfl, rfl, rfl, rfl, rfl, ?_⟩
  unfold StoreSt.get
  simp [habsent]

/-- Witness: a file one tick past its lifetime is discarded by Recover
and its id stays unknown. -/
theorem recover_discards_expired_or_empty_witness :
    ((initStore 0 0 [(.good 4, [9])]).recover 10 100 (.good 4) ⟨false, 50, 1⟩ none).result =
      .ok () ∧
    ((initStore 0 0 [(.good 4, [9])]).recover 10 100 (.good 4) ⟨false, 50, 1⟩ none).st.cache =
      (initStore 0 0 [(.good 4, [9])]).cache ∧
    ((initStore 0 0 [(.good 4, [9])]).recover 10 100 (.good 4) ⟨false, 50, 1⟩ none).st.stats =
      (initStore 0 0 [(.good 4, [9])]).stats ∧
    ((initStore 0 0 [(.good 4, [9])]).recover 10 100 (.good 4) ⟨false, 50, 1⟩ none).st.timers =
      (initStore 0 0 [(.good 4, [9])]).timers ∧
    ((initStore 0 0 [(.good 4, [9])]).recover 10 100 (.good 4) ⟨false, 50, 1⟩ none).st.fs =
      aerase (initStore 0 0 [(.good 4, [9])]).fs (.good 4) ∧
    ((initStore 0 0 [(.good 4, [9])]).recover 10 100 (.good 4) ⟨false, 50, 1⟩ none).st.get 4 =
      .error .pasteNotFound :=
  recover_discards_expired_or_empty (initStore 0 0 [(.good 4, [9])]) 10 100 (.good 4)
    ⟨false, 50, 1⟩ 4 rfl rfl (Or.inl (by decide)) (by decide)

/-- Claim C5: a persisted file that survives the expiration and zero-size
checks is opened and mapped by Recover, registered in the cache with the
file modification time and size, its quota reserved, and a deletion
timer armed for the remaining lifetime `modTime + lifeTime - startTime`;
Get on its id succeeds afterwards. -/
theorem recover_registers_survivor (st : StoreSt) (lifeTime startTime : Int)
    (path : FPath) (fi : FileInfo) (id : ID) (data : List Nat)
    (hdir : fi.isDir = false)
    (hid : idFromPath path = .ok id)
    (hlt : 0 < lifeTime)
    (halive : 0 < fi.modTime + lifeTime - startTime)
    (hsz : fi.size ≠ 0)
    (hspace : st.stats.hasSpaceFor fi.size = .ok ())
    (hmm : getMmap (alookup st.fs path) fi.size.toNat = .ok data) :
    (st.recover lifeTime startTime path fi none).result = .ok () ∧
    alookup (st.recover lifeTime startTime path fi none).st.cache id =
      some ⟨0, fi.modTime, path, data, fi.size⟩ ∧
    (st.recover lifeTime startTime path fi none).st.stats =
      st.stats.makeSpaceFor fi.size ∧
    (st.recover lifeTime startTime path fi none).st.timers =
      (id, fi.modTime + lifeTime - startTime) :: st.timers ∧
    (st.recover lifeTime startTime path fi none).st.get id =
      .ok ⟨data, ⟨1, fi.modTime, path, data, fi.size⟩⟩ := by
  have hexp : ¬(0 < lifeTime ∧ fi.modTime + lifeTime - startTime ≤ 0) := by
    rintro ⟨h1, h2⟩
    omega
  have hres : st.recover lifeTime startTime path fi none =
      ⟨.ok (),
       { st with
          stats := st.stats.makeSpaceFor fi.size
          cache := (id, ⟨0, fi.modTime, path, data, fi.size⟩) :: aerase st.cache id
          timers := (id, fi.modTime + lifeTime - startTime) :: st.timers }⟩ := by
    have hexp2 : ¬(0 < lifeTime ∧ fi.modTime + lifeTime ≤ startTime) := by omega
    have hne : lifeTime ≠ 0 := by omega
    unfold StoreSt.recover setupPasteDeletion
    simp [hdir, hid, hexp, hexp2, hsz, hspace, hmm, hne]
  rw [hres]
  refine ⟨rfl, ?_, rfl, rfl, ?_⟩
  · simp [alookup]
  · unfold StoreSt.get
    simp [alookup]

/-- Witness: an object persisted half a lifetime ago is recovered and
scheduled for deletion after the remaining half lifetime (5 of 10), not
the full one. -/
theorem recover_registers_survivor_witness :
    ((initStore 0 0 [(.good 4, [9])]).recover 10 100 (.good 4) ⟨false, 95, 1⟩ none).result =
      .ok () ∧
    alookup ((initStore 0 0 [(.good 4, [9])]).recover 10 100 (.good 4)
        ⟨false, 95, 1⟩ none).st.cache 4 = some ⟨0, 95, .good 4, [9], 1⟩ ∧
    ((initStore 0 0 [(.good 4, [9])]).recover 10 100 (.good 4) ⟨false, 95, 1⟩ none).st.stats =
      (initStore 0 0 [(.good 4, [9])]).stats.makeSpaceFor 1 ∧
    ((initStore 0 0 [(.good 4, [9])]).recover 10 100 (.good 4) ⟨false, 95, 1⟩ none).st.timers =
      (4, 5) :: (initStore 0 0 [(.good 4, [9])]).timers ∧
    ((initStore 0 0 [(.good 4, [9])]).recover 10 100 (.good 4) ⟨false, 95, 1⟩ none).st.get 4 =
      .ok ⟨[9], ⟨1, 95, .good 4, [9], 1⟩⟩ := by
  have h := recover_registers_survivor (initStore 0 0 [(.good 4, [9])]) 10 100 (.good 4)
    ⟨false, 95, 1⟩ 4 [9] rfl rfl (by decide) (by decide) (by decide) (by decide) (by decide)
  simpa using h

/-- Claim C4: a successful Put(content) returning id followed by Get(id)
yields exactly content, unmodified. -/
theorem put_get_roundtrip (st : StoreSt) (now : Int) (cands : List ID)
    (content : List Nat) (id : ID)
    (h : (st.put now cands content).result = .ok id) :
    ∃ hnd, (st.put now cands content).st.get id = .ok hnd ∧ hnd.content = content := by
  unfold StoreSt.put at h ⊢
  repeat' split at h
  any_goals simp at h
  rename_i x3 hspace x2 idg hid x1 fs1 hwrite x0 data hmm
  obtain ⟨hfs1, -⟩ := writeNewFile_ok hwrite
  have hdata : data = content := by
    rw [hfs1] at hmm
    rw [(by simp [alookup] :
      alookup ((pathFromID idg, content) :: st.fs) (pathFromID idg) = some content)] at hmm
    simpa using getMmap_some_ok hmm
  simp only [hspace, hid, hwrite, hmm]
  refine ⟨⟨content, ⟨1, now, pathFromID idg, content, (content.length : Int)⟩⟩, ?_, rfl⟩
  unfold StoreSt.get
  simp [alookup, hdata, h]

/-- Witness: putting the two-byte content [1, 2] and getting it back. -/
theorem put_get_roundtrip_witness :
    ∃ hnd, ((initStore 0 0 []).put 0 [7] [1, 2]).st.get 7 = .ok hnd ∧
      hnd.content = [1, 2] :=
  put_get_roundtrip (initStore 0 0 []) 0 [7] [1, 2] 7 (by decide)

/-- Counterexample to claim C6 as stated: when the recovery walk meets an
unparsable filename, `Recover` returns the parse error to the walk
driver, which aborts the walk, so a later valid entry (id 4, alive and
non-empty) is never registered — the walk does not continue over the
remaining entries. -/
theorem recovery_walk_aborts_on_bad_name :
    (walkRecover 10 100 (initStore 0 0 [(.bad 0, [1]), (.good 4, [9])])
        [(.bad 0, ⟨false, 99, 1⟩), (.good 4, ⟨false, 99, 1⟩)]).1 = .error .badPath ∧
    alookup (walkRecover 10 100 (initStore 0 0 [(.bad 0, [1]), (.good 4, [9])])
        [(.bad 0, ⟨false, 99, 1⟩), (.good 4, ⟨false, 99, 1⟩)]).2.cache 4 = none := by
  decide

/-- Claim C6 amended: a zero-byte file met during the recovery walk is
handled locally — it is removed and not registered — and the walk
continues over the remaining entries; an unparsable filename, by
contrast, aborts the walk. -/
theorem recovery_walk_continues_after_empty_file (st : StoreSt) (lifeTime startTime : Int)
    (path : FPath) (fi : FileInfo) (id : ID) (rest : List (FPath × FileInfo))
    (hdir : fi.isDir = false)
    (hid : idFromPath path = .ok id)
    (hz : fi.size = 0) :
    walkRecover lifeTime startTime st ((path, fi) :: rest) =
      walkRecover lifeTime startTime { st with fs := aerase st.fs path } rest := by
  have hres : st.recover lifeTime startTime path fi none =
      ⟨.ok (), { st with fs := aerase st.fs path }⟩ := by
    unfold StoreSt.recover
    by_cases hexp : 0 < lifeTime ∧ fi.modTime + lifeTime - startTime ≤ 0
    · simp [hdir, hid, hexp]
    · simp [hdir, hid, hexp, hz]
  have hstep : walkRecover lifeTime startTime st ((path, fi) :: rest) =
      match (st.recover lifeTime startTime path fi none).result with
      | .error e => (.error e, (st.recover lifeTime startTime path fi none).st)
      | .ok _ => walkRecover lifeTime startTime (st.recover lifeTime startTime path fi none).st rest :=
    rfl
  rw [hstep, hres]

/-- Witness: a zero-byte file followed by a healthy one; the walk goes on
to the second entry. -/
theorem recovery_walk_continues_after_empty_file_witness :
    walkRecover 10 100 (initStore 0 0 [(.good 3, []), (.good 4, [9])])
        [(.good 3, ⟨false, 99, 0⟩), (.good 4, ⟨false, 99, 1⟩)] =
      walkRecover 10 100
        { initStore 0 0 [(.good 3, []), (.good 4, [9])] with
            fs := aerase (initStore 0 0 [(.good 3, []), (.good 4, [9])]).fs (.good 3) }
        [(.good 4, ⟨false, 99, 1⟩)] :=
  recovery_walk_continues_after_empty_file (initStore 0 0 [(.good 3, []), (.good 4, [9])])
    10 100 (.good 3) ⟨false, 99, 0⟩ 3 [(.good 4, ⟨false, 99, 1⟩)] rfl rfl rfl

/-- Claim C9: a Delete that fails while unmapping or removing the backing
file returns that error after the cache entry was already removed from
the table: the failed Delete releases no quota, and every subsequent Get
or Delete of that id returns NotFound without mutating the state, so the
reserved quota of the object is never released. -/
theorem delete_failure_leaks_quota (st : StoreSt) (id : ID) (cached : MmapCacheV)
    (me re : Option Err) (e : Err)
    (hc : alookup st.cache id = some cached)
    (hr : cached.reading = 0)
    (herr : me = some e ∨ (me = none ∧ re = some e)) :
    ∃ r, st.delete id me re = some r ∧ r.result = .error e ∧
      r.st.cache = aerase st.cache id ∧ r.st.stats = st.stats ∧
      r.st.get id = .error .pasteNotFound ∧
      ∀ me2 re2, r.st.delete id me2 re2 =
        some ⟨.error .pasteNotFound, r.st, 0, false, false⟩ := by
  have hpost : alookup (aerase st.cache id) id = none := alookup_aerase st.cache id
  rcases herr with h1 | ⟨h2, h3⟩
  · subst h1
    refine ⟨⟨.error e, { st with cache := aerase st.cache id }, 0, false, false⟩,
      ?_, rfl, rfl, rfl, ?_, ?_⟩
    · unfold StoreSt.delete
      simp [hc, hr]
    · unfold StoreSt.get
      simp [hpost]
    · intro me2 re2
      unfold StoreSt.delete
      simp [hpost]
  · subst h2
    subst h3
    refine ⟨⟨.error e, { st with cache := aerase st.cache id }, 0, true, false⟩,
      ?_, rfl, rfl, rfl, ?_, ?_⟩
    · unfold StoreSt.delete
      simp [hc, hr]
    · unfold StoreSt.get
      simp [hpost]
    · intro me2 re2
      unfold StoreSt.delete
      simp [hpost]

/-- Witness: a store holding one 1-byte object whose munmap fails. -/
theorem delete_failure_leaks_quota_witness :
    ∃ r, (⟨[(7, ⟨0, 0, .good 7, [42], 1⟩)], [(.good 7, [42])], ⟨1, 1, 0, 0⟩, []⟩ :
        StoreSt).delete 7 (some (.sysErr 5)) none = some r ∧
      r.result = .error (.sysErr 5) ∧
      r.st.cache = aerase [(7, (⟨0, 0, .good 7, [42], 1⟩ : MmapCacheV))] 7 ∧
      r.st.stats = ⟨1, 1, 0, 0⟩ ∧
      r.st.get 7 = .error .pasteNotFound ∧
      ∀ me2 re2, r.st.delete 7 me2 re2 =
        some ⟨.error .pasteNotFound, r.st, 0, false, false⟩ :=
  delete_failure_leaks_quota
    ⟨[(7, ⟨0, 0, .good 7, [42], 1⟩)], [(.good 7, [42])], ⟨1, 1, 0, 0⟩, []⟩ 7
    ⟨0, 0, .good 7, [42], 1⟩ (some (.sysErr 5)) none (.sysErr 5)
    (by decide) rfl (Or.inl rfl)

/-- Claim C1 is violated by the code: `Get` increments the WaitGroup
counter only on its own copy of the map entry (Go copies the struct out
of the map), so a later `Delete` waits on its own copy, observes counter
0, never blocks, and completes the munmap and the backing-file removal
while the reader handle from the earlier `Get` is still unreleased.
Concretely: after `Put([42]) = 7`, a `Get(7)` handle is open (its escaped
counter is 1), yet `Delete(7)` runs to completion, observing a wait
counter of 0 and performing both the unmap and the file removal. -/
theorem delete_ignores_inflight_reader :
    ((initStore 0 0 []).put 0 [7] [42]).st.get 7 =
      .ok ⟨[42], ⟨1, 0, .good 7, [42], 1⟩⟩ ∧
    ((initStore 0 0 []).put 0 [7] [42]).st.delete 7 none none =
      some ⟨.ok (), initStore 0 0 [], 0, true, true⟩ := by
  decide

end Pastecat
